import Mathlib

/-!
Shallow embedding of the ryanc414/Sudoku-Solver repository (files `grid.py`
and `sudoku.py`) together with proofs about its validation rules and its
single-candidate elimination solver.

Conventions of the embedding:
* `self.grid` (a Python list of lists of ints) becomes `Grid := List (List Nat)`.
* `self[i, j]` (`Grid.__getitem__`: column `i` of row `j`, i.e. `grid[j][i]`)
  becomes `getCell g i j`; `self[i, j] = v` becomes `setCell g i j v`.
  Out-of-range access raises `IndexError` in Python; the model totalizes the
  accessors with a default and every theorem stays within bounds.
* raised exceptions become `Except` / explicit error constructors; an error
  constructor carries the indices that the Python message interpolates.
* in-place mutation of the grid becomes explicit state passing: functions
  that mutate `self.grid` return the new grid.
-/

namespace SudokuSolver

/-- Equality of `Except` values is decidable when it is on both sides;
used to evaluate the validation functions on concrete grids. -/
instance instDecidableEqExcept {ε α : Type} [DecidableEq ε] [DecidableEq α] :
    DecidableEq (Except ε α) := fun a b =>
  match a, b with
  | .ok x, .ok y => decidable_of_iff (x = y) (by simp)
  | .error e, .error f => decidable_of_iff (e = f) (by simp)
  | .ok _, .error _ => isFalse fun h => Except.noConfusion h
  | .error _, .ok _ => isFalse fun h => Except.noConfusion h

/-- `self.grid`: a list of rows, each row a list of cell values. -/
abbrev Grid := List (List Nat)

/-- `Grid.__getitem__`: `self[i, j]` is `self.grid[j][i]`, the cell in
column `i` and row `j`. -/
def getCell (g : Grid) (i j : Nat) : Nat :=
  (g.getD j []).getD i 0

/-- `Grid.__setitem__`: `self[i, j] = v` performs `self.grid[j][i] = v`. -/
def setCell (g : Grid) (i j v : Nat) : Grid :=
  g.set j ((g.getD j []).set i v)

/-- `self.n_rows`, set to `len(self)` in `read_gridfile`. -/
def n_rows (g : Grid) : Nat := g.length

/-- `self.n_cols`, set to `len(self.grid[0])` in `read_gridfile` (only
meaningful when the grid has at least one row). -/
def n_cols (g : Grid) : Nat := (g.headD []).length

/-- A 9x9 grid: 9 rows, each of length 9. -/
def wellFormed (g : Grid) : Bool :=
  g.length == 9 && g.all fun row => row.length == 9

/-- The constructors of `InvalidGridError` raised by `grid.py` / `sudoku.py`,
one per distinct message; a constructor carries the indices interpolated
into the Python message. -/
inductive GridError where
  /-- "Error, unequal row lengths in input grid." -/
  | unequalRows
  /-- "Error, input grid must be 9x9." -/
  | not9x9
  /-- "Error, input grid must contain digits 0-9 only." -/
  | invalidDigits
  /-- "Error, duplicate digits found in row {row}." -/
  | rowDup (row : Nat)
  /-- "Error, duplicate digits found in column {col}." -/
  | colDup (col : Nat)
  /-- "Error, duplicate digits found in quadrant {x}, {y}" -/
  | quadDup (x y : Nat)
  deriving DecidableEq, Repr

/-- The exception kinds that reach the `__main__` block of `sudoku.py`. -/
inductive PyError where
  /-- `InvalidGridError` with one of the messages above. -/
  | invalidGrid (e : GridError)
  /-- `CouldNotConvertInt` from `convert_line_to_int`. -/
  | couldNotConvertInt
  /-- Python `IndexError`. -/
  | indexError
  /-- Python `IOError` when the input file cannot be opened. -/
  | ioError
  /-- `Exception("Error, cannot solve.")` raised by `Sudoku.solve`. -/
  | cannotSolve
  deriving DecidableEq, Repr

/-- `Grid.check_grid`: every row must have length `n_cols`. -/
def grid_check_grid (g : Grid) : Except GridError Unit :=
  if g.all fun row => row.length == n_cols g then .ok () else .error .unequalRows

/-- `self.digits = range(1, 10)` turned into a set by
`set(self.digits)` in `check_possible_digits`. -/
def digits : Finset Nat := {1, 2, 3, 4, 5, 6, 7, 8, 9}

/-- `self.quadrants = {0: [0, 1, 2], 1: [3, 4, 5], 2: [6, 7, 8]}`. -/
def quadrants (k : Nat) : List Nat :=
  match k with
  | 0 => [0, 1, 2]
  | 1 => [3, 4, 5]
  | 2 => [6, 7, 8]
  | _ => []

/-- `Sudoku.quadrant_limits`: scan `self.quadrants.itervalues()` (Python 2
iterates the keys 0, 1, 2 in that order) for the range containing `x`.
`x ≥ 9` raises `IndexError` in the source; the model returns `[]` there and
no theorem uses that case. -/
def quadrant_limits (x : Nat) : List Nat :=
  if x ∈ ([0, 1, 2] : List Nat) then [0, 1, 2]
  else if x ∈ ([3, 4, 5] : List Nat) then [3, 4, 5]
  else if x ∈ ([6, 7, 8] : List Nat) then [6, 7, 8]
  else []

/-- The values `self[i, row]` scanned by `check_for_row_duplicates`
(`i` in `range(self.n)`). -/
def row_cells (g : Grid) (row : Nat) : List Nat :=
  (List.range 9).map fun i => getCell g i row

/-- The values `self[col, i]` scanned by `check_for_column_duplicates`. -/
def col_cells (g : Grid) (col : Nat) : List Nat :=
  (List.range 9).map fun i => getCell g col i

/-- The values `self[i, j]` scanned by `check_for_quadrant_duplicates`
(`i` over `self.quadrants[x]`, inner `j` over `self.quadrants[y]`). -/
def quad_cells (g : Grid) (x y : Nat) : List Nat :=
  (quadrants x).flatMap fun i => (quadrants y).map fun j => getCell g i j

/-- The duplicate-scan loop shared by the three `check_for_*_duplicates`
methods: walk the values keeping the `found_digits` set, reporting `true`
as soon as a value is non-zero and already in the set; every scanned value
(zero included) is added to the set. -/
def find_duplicate : List Nat → Finset Nat → Bool
  | [], _ => false
  | v :: vs, found =>
    if v ≠ 0 ∧ v ∈ found then true else find_duplicate vs (insert v found)

/-- `Sudoku.check_for_row_duplicates`. -/
def check_for_row_duplicates (g : Grid) (row : Nat) : Except GridError Unit :=
  if find_duplicate (row_cells g row) ∅ then .error (.rowDup row) else .ok ()

/-- `Sudoku.check_for_column_duplicates`. -/
def check_for_column_duplicates (g : Grid) (col : Nat) : Except GridError Unit :=
  if find_duplicate (col_cells g col) ∅ then .error (.colDup col) else .ok ()

/-- `Sudoku.check_for_quadrant_duplicates`. -/
def check_for_quadrant_duplicates (g : Grid) (x y : Nat) : Except GridError Unit :=
  if find_duplicate (quad_cells g x y) ∅ then .error (.quadDup x y) else .ok ()

/-- `Sudoku.check_for_invalid_digits`: every cell must satisfy
`self[i, j] in range(self.n)`, i.e. `self[i, j] < 9` (note: `range(9)` is
`{0, ..., 8}`, so the code rejects the digit 9). -/
def check_for_invalid_digits (g : Grid) : Except GridError Unit :=
  if (List.range 9).all (fun i => (List.range 9).all fun j => getCell g i j < 9)
  then .ok () else .error .invalidDigits

/-- The `for i in range(self.n): check_for_row_duplicates(i);
check_for_column_duplicates(i)` loop of `Sudoku.check_grid`, with the raise
of an exception short-circuiting the loop. -/
def check_rows_cols (g : Grid) : List Nat → Except GridError Unit
  | [] => .ok ()
  | i :: is =>
    match check_for_row_duplicates g i with
    | .error e => .error e
    | .ok () =>
      match check_for_column_duplicates g i with
      | .error e => .error e
      | .ok () => check_rows_cols g is

/-- Inner loop of the quadrant sweep: `for j in self.quadrants.iterkeys()`. -/
def check_quads_inner (g : Grid) (x : Nat) : List Nat → Except GridError Unit
  | [] => .ok ()
  | y :: ys =>
    match check_for_quadrant_duplicates g x y with
    | .error e => .error e
    | .ok () => check_quads_inner g x ys

/-- Outer loop of the quadrant sweep: `for i in self.quadrants.iterkeys()`
(Python 2 iterates the keys in the order 0, 1, 2). -/
def check_quads_outer (g : Grid) : List Nat → Except GridError Unit
  | [] => .ok ()
  | x :: xs =>
    match check_quads_inner g x [0, 1, 2] with
    | .error e => .error e
    | .ok () => check_quads_outer g xs

/-- `Sudoku.check_grid`: dimension check, then the parent class's
equal-row-length check, then the digit-range check, then the interleaved
row/column duplicate checks, then the quadrant duplicate checks. -/
def check_grid (g : Grid) : Except GridError Unit :=
  if n_rows g = 9 ∧ n_cols g = 9 then
    match grid_check_grid g with
    | .error e => .error e
    | .ok () =>
      match check_for_invalid_digits g with
      | .error e => .error e
      | .ok () =>
        match check_rows_cols g (List.range 9) with
        | .error e => .error e
        | .ok () => check_quads_outer g [0, 1, 2]
  else .error .not9x9

/-- `Grid.read_gridfile`, after `convert_line_to_int` has produced the list
of rows: stores the rows, sets `n_rows = len(self)` and
`n_cols = len(self.grid[0])` — the subscript raises `IndexError` when there
are zero lines — and then runs (the `Sudoku` override of) `check_grid`. -/
def read_gridfile (lines : List (List Nat)) : Except PyError Grid :=
  match lines with
  | [] => .error .indexError
  | _ :: _ =>
    match check_grid lines with
    | .error e => .error (.invalidGrid e)
    | .ok () => .ok lines

/-- The `try/except` of the `__main__` block around `Sudoku(argv[1])`:
`none` models a missing command-line argument (`argv[1]` raises
`IndexError`), `some none` an unreadable file (`IOError`), and
`some (some lines)` a readable file with the given parsed rows. The result
is the message printed by an `except` branch, or `none` when no `except`
branch fires (construction succeeded, or the exception is uncaught). -/
def cli_error_message (argv_file : Option (Option (List (List Nat)))) : Option String :=
  match argv_file with
  | none => some "Error, no input file was specified."
  | some none => some "Error, could not read specified file."
  | some (some lines) =>
    match read_gridfile lines with
    | .error .indexError => some "Error, no input file was specified."
    | .error .ioError => some "Error, could not read specified file."
    | _ => none

/-- `Sudoku.remove_digits_in_quadrant`: discard from `digs` every value in
the 3x3 quadrant of cell `(i, j)` (`col_range = quadrant_limits(i)`,
`row_range = quadrant_limits(j)`; the loop shadows `i`, `j`, which the
explicit binders make harmless here). -/
def remove_digits_in_quadrant (g : Grid) (digs : Finset Nat) (i j : Nat) : Finset Nat :=
  (quadrant_limits i).foldl
    (fun s a => (quadrant_limits j).foldl (fun t b => t.erase (getCell g a b)) s) digs

/-- `Sudoku.remove_digits_in_col`: discard every `self[col, i]`. -/
def remove_digits_in_col (g : Grid) (digs : Finset Nat) (col : Nat) : Finset Nat :=
  (List.range 9).foldl (fun s a => s.erase (getCell g col a)) digs

/-- `Sudoku.remove_digits_in_row`: discard every `self[i, row]`. -/
def remove_digits_in_row (g : Grid) (digs : Finset Nat) (row : Nat) : Finset Nat :=
  (List.range 9).foldl (fun s a => s.erase (getCell g a row)) digs

/-- The values scanned by the two loops of `remove_digits_in_quadrant`:
`self[i, j]` for `i` over `quadrant_limits` of the column and `j` over
`quadrant_limits` of the row. -/
def quad_region_cells (g : Grid) (i j : Nat) : List Nat :=
  (quadrant_limits i).flatMap fun a => (quadrant_limits j).map fun b => getCell g a b

/-- `Sudoku.check_possible_digits`: start from `set(self.digits)` and
remove, in order, the digits in the quadrant, the column and the row of
cell `(i, j)`. The Python methods mutate the local set only; the grid is
read, never written, so the embedding returns just the digit set. -/
def check_possible_digits (g : Grid) (i j : Nat) : Finset Nat :=
  remove_digits_in_row g (remove_digits_in_col g (remove_digits_in_quadrant g digits i j) i) j

/-- `Sudoku.complete`: no cell holds a `0`. -/
def complete (g : Grid) : Bool :=
  (List.range 9).all fun i => (List.range 9).all fun j => getCell g i j != 0

/-- The coordinates `(i, j)` (column, row) in the order the
`for i in range(self.n): for j in range(self.n)` loops of `Sudoku.solve`
visit `self[i, j]`. -/
def scanOrder : List (Nat × Nat) :=
  (List.range 9).flatMap fun i => (List.range 9).map fun j => (i, j)

/-- The body of one pass of `Sudoku.solve` over the cell coordinates `ps`,
threading the mutable grid and the `found_one` flag: a cell holding `0`
whose candidate set has exactly one element is assigned in place, so the
cells scanned later in the same pass see the updated grid.
`possible_digits` is always a subset of the domain `range(1, 10)` (it is
obtained from it by discards alone), so enumerating that range and keeping
the members of the set lists exactly its elements; the unpacking
`digit, = possible_digits` guarded by `len(possible_digits) == 1` succeeds
precisely when this list is a singleton. -/
def pass_cells : List (Nat × Nat) → Grid → Bool → Grid × Bool
  | [], g, found => (g, found)
  | p :: ps, g, found =>
    if getCell g p.1 p.2 = 0 then
      match (List.range' 1 9).filter (fun d => d ∈ check_possible_digits g p.1 p.2) with
      | [d] => pass_cells ps (setCell g p.1 p.2 d) true
      | _ => pass_cells ps g found
    else pass_cells ps g found

/-- One full pass of the `while` loop of `Sudoku.solve`
(`found_one = False` at the start of each pass). -/
def one_pass (g : Grid) : Grid × Bool :=
  pass_cells scanOrder g false

/-- The number of cells among the 81 scanned coordinates that hold the
unknown marker `0`. -/
def count_zeros (g : Grid) : Nat :=
  scanOrder.countP fun p => getCell g p.1 p.2 == 0

/-- Outcome of `Sudoku.solve`: normal return with the final grid, or
`Exception("Error, cannot solve.")` (the spec's `SolveError`) with the grid
as it stands when the exception is raised. `outOfFuel` is an artifact of
the bounded model of the `while` loop; the termination theorem shows it is
never the result on a 9x9 grid. -/
inductive SolveResult where
  | ok (g : Grid)
  | cannotSolve (g : Grid)
  | outOfFuel (g : Grid)
  deriving DecidableEq, Repr

/-- The `while not self.complete()` loop of `Sudoku.solve`, bounded by a
fuel parameter: run a pass, recurse if it assigned a digit, raise
otherwise. -/
def solveLoop : Nat → Grid → SolveResult
  | 0, g => .outOfFuel g
  | fuel + 1, g =>
    if complete g then .ok g
    else
      match one_pass g with
      | (g', found) => if found then solveLoop fuel g' else .cannotSolve g'

/-- `Sudoku.solve`. Every pass that assigns a digit turns a `0` into a
non-zero digit, so `count_zeros g + 1` passes always suffice on a 9x9
grid (proved below); with that fuel the bounded loop is the source's
unbounded loop. -/
def solve (g : Grid) : SolveResult :=
  solveLoop (count_zeros g + 1) g

/-- The grid held by a `SolveResult` (the state of `self.grid` when
`solve` returns or raises). -/
def result_grid : SolveResult → Grid
  | .ok g => g
  | .cannotSolve g => g
  | .outOfFuel g => g

/-- `Reaches g g'`: the solve loop, started on `g`, performs zero or more
full passes that each assign at least one digit and is left at `g'`. -/
inductive Reaches : Grid → Grid → Prop where
  | refl (g : Grid) : Reaches g g
  | step {g g' g'' : Grid} : complete g = false → one_pass g = (g', true) →
      Reaches g' g'' → Reaches g g''

/-! Definitions written from the specification's words, to be compared with
the definitions read off the source. -/

/-- Row-major visiting order as the spec describes the scan ("row 0 all
columns, then row 1, ..."): step `k` visits row `k / 9`, column `k % 9`;
pairs are `(column, row)` exactly as in `self[i, j]`. -/
def rowMajorOrder : List (Nat × Nat) :=
  (List.range 81).map fun k => (k % 9, k / 9)

/-- Column-major visiting order: step `k` visits column `k / 9`,
row `k % 9`, so the column index varies slowest. -/
def columnMajorOrder : List (Nat × Nat) :=
  (List.range 81).map fun k => (k / 9, k % 9)

/-- No non-zero value occurs twice in a list of cell values. -/
def no_dups (l : List Nat) : Bool :=
  l.all fun d => d == 0 || l.count d == 1

/-- "Structurally valid" state per spec section 3: the grid is 9x9, every
cell value lies in `{0, ..., 9}`, and no non-zero value repeats within any
row, column or block. -/
def specValid (g : Grid) : Bool :=
  wellFormed g
  && ((List.range 9).all fun r => (row_cells g r).all fun v => decide (v ≤ 9))
  && ((List.range 9).all fun r => no_dups (row_cells g r))
  && ((List.range 9).all fun c => no_dups (col_cells g c))
  && (([0, 1, 2] : List Nat).all fun x =>
        ([0, 1, 2] : List Nat).all fun y => no_dups (quad_cells g x y))

/-- The non-zero values found in row `row` of the grid. -/
def row_vals_nz (g : Grid) (row : Nat) : Finset Nat :=
  ((row_cells g row).filter fun v => v ≠ 0).toFinset

/-- The non-zero values found in column `col` of the grid. -/
def col_vals_nz (g : Grid) (col : Nat) : Finset Nat :=
  ((col_cells g col).filter fun v => v ≠ 0).toFinset

/-- The cells of the 3x3 block containing `(col, row)`, the block being the
cross product of the contiguous index triple containing `col` and the one
containing `row`. -/
def block_cells (g : Grid) (col row : Nat) : List Nat :=
  (List.range 3).flatMap fun a =>
    (List.range 3).map fun b => getCell g (3 * (col / 3) + a) (3 * (row / 3) + b)

/-- The non-zero values found in the block containing `(col, row)`. -/
def block_vals_nz (g : Grid) (col row : Nat) : Finset Nat :=
  ((block_cells g col row).filter fun v => v ≠ 0).toFinset

/-- `CandidatesAt` as the spec states it: the domain `{1, ..., 9}` minus
the non-zero values of the row, minus those of the column, minus those of
the block of the cell. -/
def candidatesSpec (g : Grid) (col row : Nat) : Finset Nat :=
  digits \ (row_vals_nz g row ∪ col_vals_nz g col ∪ block_vals_nz g col row)

/-! Concrete grids used as failing inputs, counterexamples and witnesses. -/

/-- The all-unknown 9x9 grid. -/
def allZeros : Grid := List.replicate 9 (List.replicate 9 0)

/-- A structurally valid grid (per the spec) holding the digit 9 in its
first cell and 0 everywhere else. -/
def gridNine : Grid :=
  [9, 0, 0, 0, 0, 0, 0, 0, 0] :: List.replicate 8 (List.replicate 9 0)

/-- A grid whose row 1 holds a duplicate 5 and whose column 0 also holds a
duplicate 5; all values lie in the range the digit check accepts. -/
def gridColDupFirst : Grid :=
  [5, 0, 0, 0, 0, 0, 0, 0, 0] :: [5, 5, 0, 0, 0, 0, 0, 0, 0] ::
    List.replicate 7 (List.replicate 9 0)

/-- A grid whose only duplicate is a 5 appearing twice in row 0. -/
def gridRowDup : Grid :=
  [5, 5, 0, 0, 0, 0, 0, 0, 0] :: List.replicate 8 (List.replicate 9 0)

/-- A structurally valid grid holding a single 5 and 80 unknowns; no cell
ever has a single candidate, so solving stalls immediately. -/
def gridOneFive : Grid :=
  [5, 0, 0, 0, 0, 0, 0, 0, 0] :: List.replicate 8 (List.replicate 9 0)

/-- A grid on which the scanning order is observable within one pass: the
cell `(0, 1)` (column 0, row 1) has the single candidate 1, while the cell
`(1, 0)` has candidates `{1, 5}` until `(0, 1)` is assigned (both share the
top-left block) and only then collapses to 5. -/
def gridOrderSensitive : Grid :=
  [[2, 0, 3, 4, 6, 7, 8, 9, 2], [0, 2, 3, 4, 5, 6, 7, 8, 9]] ++
    List.replicate 7 (List.replicate 9 0)

/-- A complete Sudoku solution with the single cell `(0, 0)` blanked; the
missing digit there is 1. -/
def gridOneMissing : Grid :=
  [[0, 2, 3, 4, 5, 6, 7, 8, 9],
   [4, 5, 6, 7, 8, 9, 1, 2, 3],
   [7, 8, 9, 1, 2, 3, 4, 5, 6],
   [2, 3, 4, 5, 6, 7, 8, 9, 1],
   [5, 6, 7, 8, 9, 1, 2, 3, 4],
   [8, 9, 1, 2, 3, 4, 5, 6, 7],
   [3, 4, 5, 6, 7, 8, 9, 1, 2],
   [6, 7, 8, 9, 1, 2, 3, 4, 5],
   [9, 1, 2, 3, 4, 5, 6, 7, 8]]

/-! Basic facts about the cell accessors and well-formed grids. -/

theorem getD_mem {g : Grid} {j : Nat} (hj : j < g.length) : g.getD j [] ∈ g := by
  rw [List.getD_eq_getElem?_getD, List.getElem?_eq_getElem hj]
  exact List.getElem_mem hj

theorem wf_length {g : Grid} (hwf : wellFormed g = true) : g.length = 9 := by
  unfold wellFormed at hwf
  simp only [Bool.and_eq_true, beq_iff_eq] at hwf
  exact hwf.1

theorem wf_row_length {g : Grid} (hwf : wellFormed g = true) {j : Nat} (hj : j < 9) :
    (g.getD j []).length = 9 := by
  unfold wellFormed at hwf
  simp only [Bool.and_eq_true, beq_iff_eq, List.all_eq_true] at hwf
  exact hwf.2 _ (getD_mem (by omega))

theorem getCell_setCell_ne (g : Grid) {i j i' j' : Nat} (v : Nat)
    (h : (i', j') ≠ (i, j)) :
    getCell (setCell g i j v) i' j' = getCell g i' j' := by
  unfold getCell setCell
  simp only [List.getD_eq_getElem?_getD]
  by_cases hj : j' = j
  · subst hj
    have hi : i ≠ i' := fun h' => h (by rw [h'])
    by_cases hlen : j' < g.length
    · rw [List.getElem?_set_self hlen, Option.getD_some,
        List.getElem?_set_ne hi]
    · rw [List.set_eq_of_length_le (by omega)]
  · rw [List.getElem?_set_ne fun hh => hj hh.symm]

theorem getCell_setCell_self (g : Grid) {i j : Nat} (v : Nat)
    (hj : j < g.length) (hi : i < (g.getD j []).length) :
    getCell (setCell g i j v) i j = v := by
  unfold getCell setCell
  simp only [List.getD_eq_getElem?_getD]
  rw [List.getElem?_set_self hj, Option.getD_some,
    List.getElem?_set_self (by rw [List.getD_eq_getElem?_getD] at hi; exact hi),
    Option.getD_some]

theorem wellFormed_setCell {g : Grid} (i j v : Nat) (hwf : wellFormed g = true) :
    wellFormed (setCell g i j v) = true := by
  by_cases hlen : j < g.length
  · unfold wellFormed at hwf ⊢
    simp only [Bool.and_eq_true, beq_iff_eq, List.all_eq_true] at hwf ⊢
    refine ⟨by rw [setCell, List.length_set]; exact hwf.1, ?_⟩
    intro row hrow
    rcases List.mem_or_eq_of_mem_set hrow with hmem | heq
    · exact hwf.2 row hmem
    · rw [heq, List.length_set]
      exact hwf.2 _ (getD_mem hlen)
  · rw [setCell, List.set_eq_of_length_le (by omega)]
    exact hwf

/-! The scan order of `Sudoku.solve` and the count of unknown cells. -/

theorem mem_scanOrder {pc pr : Nat} : (pc, pr) ∈ scanOrder ↔ pc < 9 ∧ pr < 9 := by
  simp only [scanOrder, List.mem_flatMap, List.mem_map, List.mem_range, Prod.mk.injEq]
  constructor
  · rintro ⟨a, ha, b, hb, rfl, rfl⟩
    exact ⟨ha, hb⟩
  · rintro ⟨h1, h2⟩
    exact ⟨pc, h1, pr, h2, rfl, rfl⟩

theorem scanOrder_nodup : scanOrder.Nodup := by decide

theorem countP_lt_of_mem {α : Type} {l : List α} {p q : α → Bool} {a : α}
    (ha : a ∈ l) (hpq : ∀ x ∈ l, q x = true → p x = true)
    (hpa : p a = true) (hqa : q a = false) :
    l.countP q < l.countP p := by
  induction l with
  | nil => cases ha
  | cons x xs ih =>
    rw [List.countP_cons, List.countP_cons]
    rcases List.mem_cons.mp ha with rfl | hmem
    · have hle : xs.countP q ≤ xs.countP p :=
        List.countP_mono_left fun y hy => hpq y (List.mem_cons_of_mem _ hy)
      have hq0 : (if q a = true then 1 else 0) = 0 := by rw [hqa]; simp
      have hp1 : (if p a = true then 1 else 0) = 1 := by rw [hpa]; simp
      omega
    · have hstrict := ih hmem fun y hy => hpq y (List.mem_cons_of_mem _ hy)
      have hhead : (if q x = true then 1 else 0) ≤ (if p x = true then 1 else 0) := by
        by_cases hqx : q x = true
        · rw [if_pos hqx, if_pos (hpq x (List.mem_cons_self x xs) hqx)]
        · rw [if_neg hqx]
          omega
      omega

theorem count_zeros_le (g : Grid) : count_zeros g ≤ 81 := by
  have h := List.countP_le_length (l := scanOrder)
      (p := fun p => getCell g p.1 p.2 == 0)
  have hlen : scanOrder.length = 81 := by decide
  rw [count_zeros]
  omega

theorem count_zeros_setCell_lt {g : Grid} {pc pr v : Nat}
    (hwf : wellFormed g = true) (hpc : pc < 9) (hpr : pr < 9)
    (h0 : getCell g pc pr = 0) (hv : v ≠ 0) :
    count_zeros (setCell g pc pr v) < count_zeros g := by
  have hself : getCell (setCell g pc pr v) pc pr = v := by
    refine getCell_setCell_self g v ?_ ?_
    · rw [wf_length hwf]; exact hpr
    · rw [wf_row_length hwf hpr]; exact hpc
  refine countP_lt_of_mem (a := (pc, pr)) (mem_scanOrder.mpr ⟨hpc, hpr⟩) ?_ ?_ ?_
  · intro x hx hq
    by_cases hxp : x = (pc, pr)
    · exfalso
      rw [hxp] at hq
      simp only [hself, beq_iff_eq] at hq
      exact hv hq
    · rw [show x = (x.1, x.2) from rfl] at hxp
      rw [getCell_setCell_ne g v hxp] at hq
      exact hq
  · simp [h0]
  · simp [hself, hv]

/-! Representation of `check_possible_digits` as a set difference. -/

theorem foldl_erase_eq {α : Type} (f : α → Nat) :
    ∀ (l : List α) (s : Finset Nat),
      l.foldl (fun t a => t.erase (f a)) s = s \ (l.map f).toFinset := by
  intro l
  induction l with
  | nil => intro s; simp
  | cons a l ih =>
    intro s
    rw [List.foldl_cons, ih]
    ext x
    simp only [Finset.mem_sdiff, Finset.mem_erase, List.mem_toFinset, List.map_cons,
      List.mem_cons]
    tauto

theorem foldl_foldl_erase_eq (f : Nat → Nat → Nat) (l2 : List Nat) :
    ∀ (l1 : List Nat) (s : Finset Nat),
      l1.foldl (fun s a => l2.foldl (fun t b => t.erase (f a b)) s) s
        = s \ (l1.flatMap fun a => l2.map (f a)).toFinset := by
  intro l1
  induction l1 with
  | nil => intro s; simp
  | cons a l1 ih =>
    intro s
    rw [List.foldl_cons, foldl_erase_eq (f a) l2 s, ih, sdiff_sdiff_left,
      List.flatMap_cons, List.toFinset_append, Finset.sup_eq_union]

theorem remove_digits_in_quadrant_eq (g : Grid) (digs : Finset Nat) (i j : Nat) :
    remove_digits_in_quadrant g digs i j = digs \ (quad_region_cells g i j).toFinset := by
  unfold remove_digits_in_quadrant quad_region_cells
  exact foldl_foldl_erase_eq _ _ _ _

theorem remove_digits_in_col_eq (g : Grid) (digs : Finset Nat) (col : Nat) :
    remove_digits_in_col g digs col = digs \ (col_cells g col).toFinset := by
  unfold remove_digits_in_col col_cells
  exact foldl_erase_eq _ _ _

theorem remove_digits_in_row_eq (g : Grid) (digs : Finset Nat) (row : Nat) :
    remove_digits_in_row g digs row = digs \ (row_cells g row).toFinset := by
  unfold remove_digits_in_row row_cells
  exact foldl_erase_eq _ _ _

theorem cp_repr (g : Grid) (i j : Nat) :
    check_possible_digits g i j
      = digits \ ((quad_region_cells g i j).toFinset ∪ (col_cells g i).toFinset
          ∪ (row_cells g j).toFinset) := by
  unfold check_possible_digits
  rw [remove_digits_in_quadrant_eq, remove_digits_in_col_eq, remove_digits_in_row_eq,
    sdiff_sdiff_left, sdiff_sdiff_left, Finset.sup_eq_union, Finset.union_assoc]

theorem mem_digits {d : Nat} : d ∈ digits ↔ 1 ≤ d ∧ d ≤ 9 := by
  simp only [digits, Finset.mem_insert, Finset.mem_singleton]
  omega

theorem cp_subset (g : Grid) (i j : Nat) : check_possible_digits g i j ⊆ digits := by
  rw [cp_repr]
  exact Finset.sdiff_subset

theorem filter_range_singleton {d : Nat} (hd : d ∈ digits) :
    (List.range' 1 9).filter (fun x => decide (x ∈ ({d} : Finset Nat))) = [d] := by
  rw [mem_digits] at hd
  obtain ⟨h1, h9⟩ := hd
  interval_cases d <;> decide

/-! Bridging the quadrant scan of the source to the block of the spec. -/

theorem quadrant_limits_eq {x : Nat} (hx : x < 9) :
    quadrant_limits x = [3 * (x / 3), 3 * (x / 3) + 1, 3 * (x / 3) + 2] := by
  interval_cases x <;> decide

theorem quad_region_eq_block (g : Grid) {col row : Nat} (hc : col < 9) (hr : row < 9) :
    quad_region_cells g col row = block_cells g col row := by
  unfold quad_region_cells block_cells
  rw [quadrant_limits_eq hc, quadrant_limits_eq hr,
    show List.range 3 = [0, 1, 2] from by decide]
  simp

theorem cp_eq_candidatesSpec (g : Grid) {col row : Nat} (hc : col < 9) (hr : row < 9) :
    check_possible_digits g col row = candidatesSpec g col row := by
  rw [cp_repr, candidatesSpec, quad_region_eq_block g hc hr]
  ext x
  have hx0 : x ∈ digits → x ≠ 0 := fun h => by rw [mem_digits] at h; omega
  simp only [Finset.mem_sdiff, Finset.mem_union, row_vals_nz, col_vals_nz, block_vals_nz,
    List.mem_toFinset, List.mem_filter, ne_eq, decide_not, Bool.not_eq_true',
    decide_eq_false_iff_not]
  tauto

/-! Behaviour of a single pass of `Sudoku.solve`. -/

theorem specValid_wf {g : Grid} (hv : specValid g = true) : wellFormed g = true := by
  simp only [specValid, Bool.and_eq_true] at hv
  exact hv.1.1.1.1

theorem scanOrder_bounds {p : Nat × Nat} (hp : p ∈ scanOrder) : p.1 < 9 ∧ p.2 < 9 :=
  mem_scanOrder.mp hp

theorem pass_cells_append (l1 l2 : List (Nat × Nat)) :
    ∀ (g : Grid) (b : Bool),
      pass_cells (l1 ++ l2) g b
        = pass_cells l2 (pass_cells l1 g b).1 (pass_cells l1 g b).2 := by
  induction l1 with
  | nil => intro g b; rfl
  | cons p l1 ih =>
    intro g b
    rw [List.cons_append]
    simp only [pass_cells]
    split
    · split
      · exact ih _ _
      · exact ih _ _
    · exact ih _ _

theorem pass_cells_snd_true (ps : List (Nat × Nat)) :
    ∀ g, (pass_cells ps g true).2 = true := by
  induction ps with
  | nil => intro g; rfl
  | cons p ps ih =>
    intro g
    simp only [pass_cells]
    split
    · split
      · exact ih _
      · exact ih _
    · exact ih _

theorem pass_cells_false_stall (ps : List (Nat × Nat)) :
    ∀ g, (pass_cells ps g false).2 = false → pass_cells ps g false = (g, false) := by
  induction ps with
  | nil => intro g _; rfl
  | cons p ps ih =>
    intro g h
    simp only [pass_cells] at h ⊢
    by_cases h0 : getCell g p.1 p.2 = 0
    · rw [if_pos h0] at h ⊢
      cases heq : (List.range' 1 9).filter
          (fun d => decide (d ∈ check_possible_digits g p.1 p.2)) with
      | nil =>
        rw [heq] at h
        exact ih g h
      | cons d rest =>
        cases rest with
        | nil =>
          rw [heq] at h
          have hh : (pass_cells ps (setCell g p.1 p.2 d) true).2 = false := h
          exact absurd (pass_cells_snd_true ps (setCell g p.1 p.2 d)) (by rw [hh]; simp)
        | cons d2 rest2 =>
          rw [heq] at h
          exact ih g h
    · rw [if_neg h0] at h ⊢
      exact ih g h

theorem pass_cells_skip (ps : List (Nat × Nat)) :
    ∀ g b, (∀ p ∈ ps, getCell g p.1 p.2 ≠ 0) → pass_cells ps g b = (g, b) := by
  induction ps with
  | nil => intro g b _; rfl
  | cons p ps ih =>
    intro g b hall
    simp only [pass_cells]
    rw [if_neg (hall p (List.mem_cons_self p ps))]
    exact ih g b fun q hq => hall q (List.mem_cons_of_mem _ hq)

theorem pass_cells_preserve (ps : List (Nat × Nat)) :
    ∀ g b {qc qr : Nat}, getCell g qc qr ≠ 0 →
      getCell (pass_cells ps g b).1 qc qr = getCell g qc qr := by
  induction ps with
  | nil => intro g b qc qr _; rfl
  | cons p ps ih =>
    intro g b qc qr hq
    simp only [pass_cells]
    split
    next h0 =>
      split
      next d heq =>
        have hne : (qc, qr) ≠ (p.1, p.2) := by
          intro hcon
          have h1 : qc = p.1 := congrArg Prod.fst hcon
          have h2 : qr = p.2 := congrArg Prod.snd hcon
          rw [← h1, ← h2] at h0
          exact hq h0
        have hpres : getCell (setCell g p.1 p.2 d) qc qr = getCell g qc qr :=
          getCell_setCell_ne g d hne
        rw [ih _ _ (by rw [hpres]; exact hq), hpres]
      next heq => exact ih _ _ hq
    next h0 => exact ih _ _ hq

theorem mem_of_filter_singleton {g : Grid} {a b d : Nat}
    (heq : (List.range' 1 9).filter
        (fun x => decide (x ∈ check_possible_digits g a b)) = [d]) :
    d ∈ check_possible_digits g a b := by
  have hd : d ∈ (List.range' 1 9).filter
      (fun x => decide (x ∈ check_possible_digits g a b)) := by
    rw [heq]
    exact List.mem_singleton.mpr rfl
  exact of_decide_eq_true (List.mem_filter.mp hd).2

theorem pass_cells_progress (ps : List (Nat × Nat)) :
    ∀ g b, wellFormed g = true → (∀ p ∈ ps, p.1 < 9 ∧ p.2 < 9) →
      wellFormed (pass_cells ps g b).1 = true
      ∧ count_zeros (pass_cells ps g b).1 ≤ count_zeros g
      ∧ (b = false → (pass_cells ps g b).2 = true →
          count_zeros (pass_cells ps g b).1 < count_zeros g) := by
  induction ps with
  | nil =>
    intro g b hwf _
    refine ⟨hwf, le_refl _, fun hb hb' => ?_⟩
    rw [show (pass_cells [] g b).2 = b from rfl, hb] at hb'
    cases hb'
  | cons p ps ih =>
    intro g b hwf hmem
    have htail : ∀ q ∈ ps, q.1 < 9 ∧ q.2 < 9 :=
      fun q hq => hmem q (List.mem_cons_of_mem _ hq)
    simp only [pass_cells]
    split
    next h0 =>
      split
      next d heq =>
        have hd : d ∈ check_possible_digits g p.1 p.2 := mem_of_filter_singleton heq
        have hdnz : d ≠ 0 := by
          have := mem_digits.mp (cp_subset g p.1 p.2 hd)
          omega
        have hp9 := hmem p (List.mem_cons_self p ps)
        have hlt : count_zeros (setCell g p.1 p.2 d) < count_zeros g :=
          count_zeros_setCell_lt hwf hp9.1 hp9.2 h0 hdnz
        obtain ⟨w1, w2, _⟩ := ih (setCell g p.1 p.2 d) true
          (wellFormed_setCell p.1 p.2 d hwf) htail
        exact ⟨w1, le_trans w2 (le_of_lt hlt), fun _ _ => lt_of_le_of_lt w2 hlt⟩
      next heq => exact ih g b hwf htail
    next h0 => exact ih g b hwf htail

/-! Behaviour of the solve loop. -/

theorem one_pass_progress {g : Grid} (hwf : wellFormed g = true) :
    wellFormed (one_pass g).1 = true
    ∧ count_zeros (one_pass g).1 ≤ count_zeros g
    ∧ ((one_pass g).2 = true → count_zeros (one_pass g).1 < count_zeros g) := by
  obtain ⟨w1, w2, w3⟩ :=
    pass_cells_progress scanOrder g false hwf fun p hp => scanOrder_bounds hp
  exact ⟨w1, w2, w3 rfl⟩

theorem one_pass_preserve {g : Grid} {qc qr : Nat} (hq : getCell g qc qr ≠ 0) :
    getCell (one_pass g).1 qc qr = getCell g qc qr :=
  pass_cells_preserve scanOrder g false hq

theorem solveLoop_complete {g : Grid} (hc : complete g = true) (f : Nat) :
    solveLoop (f + 1) g = .ok g := by
  simp [solveLoop, hc]

theorem solveLoop_step {g g1 : Grid} {found : Bool} (hc : complete g = false)
    (hp : one_pass g = (g1, found)) (f : Nat) :
    solveLoop (f + 1) g = if found then solveLoop f g1 else .cannotSolve g1 := by
  simp only [solveLoop, hc, hp]
  simp

theorem complete_not_true {g : Grid} (hc : ¬complete g = true) : complete g = false := by
  revert hc
  cases complete g <;> simp

theorem solveLoop_no_fuel_out : ∀ (f : Nat) (g : Grid), wellFormed g = true →
    count_zeros g < f → ∀ g', solveLoop f g ≠ SolveResult.outOfFuel g' := by
  intro f
  induction f with
  | zero => intro g _ h; omega
  | succ f ih =>
    intro g hwf hcz g'
    by_cases hc : complete g = true
    · rw [solveLoop_complete hc]
      intro h
      cases h
    · rcases hp : one_pass g with ⟨g1, found⟩
      rw [solveLoop_step (complete_not_true hc) hp f]
      obtain ⟨w1, w2, w3⟩ := one_pass_progress hwf
      rw [hp] at w1 w2 w3
      dsimp only at w1 w2 w3
      cases found with
      | true =>
        rw [if_pos rfl]
        exact ih g1 w1 (by have := w3 rfl; omega) g'
      | false =>
        rw [if_neg (by simp)]
        intro h
        cases h

theorem solveLoop_result_preserve : ∀ (f : Nat) (g : Grid) {qc qr : Nat},
    getCell g qc qr ≠ 0 →
    getCell (result_grid (solveLoop f g)) qc qr = getCell g qc qr := by
  intro f
  induction f with
  | zero => intro g qc qr _; rfl
  | succ f ih =>
    intro g qc qr hq
    by_cases hc : complete g = true
    · rw [solveLoop_complete hc]
      rfl
    · rcases hp : one_pass g with ⟨g1, found⟩
      rw [solveLoop_step (complete_not_true hc) hp f]
      have hpres : getCell g1 qc qr = getCell g qc qr := by
        have := one_pass_preserve hq
        rw [hp] at this
        exact this
      cases found with
      | true =>
        rw [if_pos rfl, ih g1 (by rw [hpres]; exact hq)]
        exact hpres
      | false =>
        rw [if_neg (by simp)]
        exact hpres

theorem solveLoop_cannotSolve_iff : ∀ (f : Nat) (g : Grid), wellFormed g = true →
    count_zeros g < f → ∀ ge,
      (solveLoop f g = .cannotSolve ge ↔
        Reaches g ge ∧ complete ge = false ∧ one_pass ge = (ge, false)) := by
  intro f
  induction f with
  | zero => intro g _ h; omega
  | succ f ih =>
    intro g hwf hcz ge
    by_cases hc : complete g = true
    · rw [solveLoop_complete hc]
      constructor
      · intro h
        cases h
      · rintro ⟨hreach, hge, hstall⟩
        cases hreach with
        | refl => rw [hc] at hge; cases hge
        | step hc' hp' hr' => rw [hc] at hc'; cases hc'
    · have hcf : complete g = false := complete_not_true hc
      rcases hp : one_pass g with ⟨g1, found⟩
      rw [solveLoop_step hcf hp f]
      cases found with
      | false =>
        rw [if_neg (by simp)]
        have hg1 : g1 = g := by
          have h2 : (pass_cells scanOrder g false).2 = false := by
            rw [show pass_cells scanOrder g false = one_pass g from rfl, hp]
          have h3 := pass_cells_false_stall scanOrder g h2
          rw [show pass_cells scanOrder g false = one_pass g from rfl, hp] at h3
          exact congrArg Prod.fst h3
        subst hg1
        constructor
        · intro h
          injection h with h'
          subst h'
          exact ⟨Reaches.refl g1, hcf, hp⟩
        · rintro ⟨hreach, hge, hstall⟩
          cases hreach with
          | refl => rfl
          | step hc' hp' hr' =>
            rw [hp] at hp'
            injection hp' with e1 e2
            exact absurd e2 (by simp)
      | true =>
        rw [if_pos rfl]
        obtain ⟨w1, w2, w3⟩ := one_pass_progress hwf
        rw [hp] at w1 w2 w3
        dsimp only at w1 w2 w3
        rw [ih g1 w1 (by have := w3 rfl; omega) ge]
        constructor
        · rintro ⟨hr, hge, hstall⟩
          exact ⟨Reaches.step hcf hp hr, hge, hstall⟩
        · rintro ⟨hreach, hge, hstall⟩
          cases hreach with
          | refl =>
            rw [hp] at hstall
            injection hstall with e1 e2
            exact absurd e2 (by simp)
          | step hc' hp' hr' =>
            rw [hp] at hp'
            injection hp' with e1 e2
            rw [← e1] at hr'
            exact ⟨hr', hge, hstall⟩

theorem reaches_preserve : ∀ {g g1 : Grid}, Reaches g g1 →
    ∀ (f : Nat), wellFormed g = true → count_zeros g < f → ∀ {qc qr : Nat},
      getCell g1 qc qr ≠ 0 →
      getCell (result_grid (solveLoop f g)) qc qr = getCell g1 qc qr := by
  intro g g1 hreach
  induction hreach with
  | refl g0 =>
    intro f _ _ qc qr hq
    exact solveLoop_result_preserve f g0 hq
  | step hc hp hr ih =>
    intro f hwf hcz qc qr hq
    cases f with
    | zero => omega
    | succ f =>
      rw [solveLoop_step hc hp f, if_pos rfl]
      obtain ⟨w1, w2, w3⟩ := one_pass_progress hwf
      rw [hp] at w1 w2 w3
      dsimp only at w1 w2 w3
      exact ih f w1 (by have := w3 rfl; omega) hq

/-! Behaviour of the structural validation. -/

theorem find_duplicate_iff : ∀ (l : List Nat) (s : Finset Nat),
    (find_duplicate l s = true ↔ ∃ d ∈ l, d ≠ 0 ∧ (d ∈ s ∨ 2 ≤ l.count d)) := by
  intro l
  induction l with
  | nil => intro s; simp [find_duplicate]
  | cons v vs ih =>
    intro s
    simp only [find_duplicate]
    by_cases hvs : v ≠ 0 ∧ v ∈ s
    · rw [if_pos hvs]
      constructor
      · intro _
        exact ⟨v, List.mem_cons_self v vs, hvs.1, Or.inl hvs.2⟩
      · intro _
        rfl
    · rw [if_neg hvs, ih (insert v s)]
      constructor
      · rintro ⟨d, hdmem, hdnz, hcase⟩
        rcases hcase with hins | hcnt
        · rcases Finset.mem_insert.mp hins with rfl | hs
          · refine ⟨d, List.mem_cons_self d vs, hdnz, Or.inr ?_⟩
            rw [List.count_cons_self]
            have : 0 < vs.count d := List.count_pos_iff.mpr hdmem
            omega
          · exact ⟨d, List.mem_cons_of_mem _ hdmem, hdnz, Or.inl hs⟩
        · exact ⟨d, List.mem_cons_of_mem _ hdmem, hdnz,
            Or.inr (le_trans hcnt (List.count_le_count_cons d v vs))⟩
      · rintro ⟨d, hdmem, hdnz, hcase⟩
        rcases List.mem_cons.mp hdmem with rfl | hdvs
        · have hvns : d ∉ s := fun hin => hvs ⟨hdnz, hin⟩
          rcases hcase with hs | hcnt
          · exact absurd hs hvns
          · have hdv : d ∈ vs := by
              rw [List.count_cons_self] at hcnt
              exact List.count_pos_iff.mp (by omega)
            exact ⟨d, hdv, hdnz, Or.inl (Finset.mem_insert_self d s)⟩
        · rcases hcase with hs | hcnt
          · exact ⟨d, hdvs, hdnz, Or.inl (Finset.mem_insert_of_mem hs)⟩
          · by_cases hdv : d = v
            · exact ⟨d, hdvs, hdnz, Or.inl (by rw [hdv]; exact Finset.mem_insert_self v s)⟩
            · exact ⟨d, hdvs, hdnz, Or.inr (by rw [List.count_cons_of_ne hdv] at hcnt; exact hcnt)⟩

theorem find_duplicate_empty_iff (l : List Nat) :
    (find_duplicate l ∅ = true ↔ ∃ d ∈ l, d ≠ 0 ∧ 2 ≤ l.count d) := by
  rw [find_duplicate_iff]
  constructor
  · rintro ⟨d, hd, hnz, hcase⟩
    rcases hcase with h | h
    · exact absurd h (Finset.not_mem_empty d)
    · exact ⟨d, hd, hnz, h⟩
  · rintro ⟨d, hd, hnz, h⟩
    exact ⟨d, hd, hnz, Or.inr h⟩

theorem wf_n_rows {g : Grid} (hwf : wellFormed g = true) : n_rows g = 9 :=
  wf_length hwf

theorem wf_n_cols {g : Grid} (hwf : wellFormed g = true) : n_cols g = 9 := by
  cases g with
  | nil => exact absurd (wf_length hwf) (by simp)
  | cons r rs =>
    show r.length = 9
    exact wf_row_length hwf (show (0 : Nat) < 9 by omega)

theorem wf_grid_check {g : Grid} (hwf : wellFormed g = true) :
    grid_check_grid g = .ok () := by
  unfold grid_check_grid
  rw [if_pos]
  have hc := wf_n_cols hwf
  simp only [wellFormed, Bool.and_eq_true, beq_iff_eq, List.all_eq_true] at hwf
  simp only [List.all_eq_true, beq_iff_eq, hc]
  exact fun row hrow => hwf.2 row hrow

theorem check_rows_cols_append (g : Grid) (l2 : List Nat) : ∀ l1 : List Nat,
    (∀ i ∈ l1, find_duplicate (row_cells g i) ∅ = false
      ∧ find_duplicate (col_cells g i) ∅ = false) →
    check_rows_cols g (l1 ++ l2) = check_rows_cols g l2 := by
  intro l1
  induction l1 with
  | nil => intro _; rfl
  | cons i l1 ih =>
    intro h1
    have hi := h1 i (List.mem_cons_self i l1)
    have hrow : check_for_row_duplicates g i = .ok () := by
      unfold check_for_row_duplicates
      rw [hi.1]
      rfl
    have hcol : check_for_column_duplicates g i = .ok () := by
      unfold check_for_column_duplicates
      rw [hi.2]
      rfl
    rw [List.cons_append]
    simp only [check_rows_cols, hrow, hcol]
    exact ih fun q hq => h1 q (List.mem_cons_of_mem _ hq)

theorem check_rows_cols_row_error (g : Grid) (r : Nat) (l2 : List Nat)
    (hdup : find_duplicate (row_cells g r) ∅ = true) :
    check_rows_cols g (r :: l2) = .error (.rowDup r) := by
  have hrow : check_for_row_duplicates g r = .error (.rowDup r) := by
    unfold check_for_row_duplicates
    rw [hdup]
    rfl
  simp only [check_rows_cols, hrow]

/-! The claims. -/

/-- C1: the spec says that every 9x9 grid with values in `{0, ..., 9}` and
no duplicate non-zero digit in any row, column or block passes
construction, and in particular that a cell holding the digit 9 passes the
digit-range check. The code contradicts this (and its own error message
"digits 0-9 only"): `check_for_invalid_digits` tests membership in
`range(self.n) = {0, ..., 8}`, so the structurally valid grid `gridNine`,
which holds a single 9, is rejected with the digit-range error. -/
theorem c1_digit_nine_rejected :
    specValid gridNine = true
    ∧ check_grid gridNine = .error .invalidDigits := by
  exact ⟨by decide, by decide⟩

/-- C2 counterexample: the cells are not scanned in row-major order: the
order in which the `solve` loops visit `self[i, j]` differs from the
row-major order the claim describes, and the two orders are observably
different — running one pass of the source on `gridOrderSensitive` yields a
different result than a pass over the same cells in row-major order. -/
theorem c2_not_row_major :
    scanOrder ≠ rowMajorOrder
    ∧ one_pass gridOrderSensitive ≠ pass_cells rowMajorOrder gridOrderSensitive false := by
  exact ⟨by decide, by decide⟩

/-- C2 (amended): during every pass of `Sudoku.solve` the 81 cells are
scanned in column-major order — all rows of column 0 first, then column 1,
and so on, with the column index varying slowest (the outer loop variable
`i` of `solve` is the column index of `self[i, j]`). -/
theorem c2_scan_column_major :
    scanOrder = columnMajorOrder
    ∧ ∀ g : Grid, one_pass g = pass_cells columnMajorOrder g false := by
  have h : scanOrder = columnMajorOrder := by decide
  exact ⟨h, fun g => by rw [one_pass, h]⟩

/-- C3: on a 9x9 grid, `solve` raises its failure exception (the spec's
`SolveError`) if and only if the loop, after zero or more passes that each
assigned at least one digit (`Reaches g ge`), is left at a grid `ge` that
still holds an unknown cell (`complete ge = false`) while a full pass over
`ge` assigns nothing and leaves the grid exactly as it was
(`one_pass ge = (ge, false)`); the grid carried by the failure is `ge`
itself, so every digit assigned by the earlier passes remains and nothing
is rolled back. -/
theorem c3_fail_iff (g ge : Grid) (hwf : wellFormed g = true) :
    solve g = .cannotSolve ge ↔
      Reaches g ge ∧ complete ge = false ∧ one_pass ge = (ge, false) :=
  solveLoop_cannotSolve_iff (count_zeros g + 1) g hwf (by omega) ge

/-- Witness for C3 at a concrete input: the all-unknown grid stalls on its
first pass, so `solve` fails there with the grid untouched. -/
theorem c3_fail_iff_witness : solve allZeros = .cannotSolve allZeros :=
  (c3_fail_iff allZeros allZeros (by decide)).mpr
    ⟨Reaches.refl allZeros, by decide, by decide⟩

/-- C4: on a structurally valid 9x9 grid the solve loop terminates: every
pass that sets its progress flag strictly decreases the number of cells
holding 0, that number is at most 81, and the bounded model of the
`while` loop never exhausts its fuel (the artifact outcome `outOfFuel` is
unreachable), which is exactly the termination of the source's unbounded
loop. -/
theorem c4_termination (g : Grid) (hv : specValid g = true) :
    (∀ g', one_pass g = (g', true) → count_zeros g' < count_zeros g)
    ∧ count_zeros g ≤ 81
    ∧ ∀ g', solve g ≠ SolveResult.outOfFuel g' := by
  have hwf := specValid_wf hv
  refine ⟨?_, count_zeros_le g, ?_⟩
  · intro g' hp
    have h := (one_pass_progress hwf).2.2 (by rw [hp])
    rw [hp] at h
    exact h
  · intro g'
    exact solveLoop_no_fuel_out (count_zeros g + 1) g hwf (by omega) g'

/-- Witness for C4 at a concrete input. -/
theorem c4_termination_witness :
    (∀ g', one_pass allZeros = (g', true) → count_zeros g' < count_zeros allZeros)
    ∧ count_zeros allZeros ≤ 81
    ∧ ∀ g', solve allZeros ≠ SolveResult.outOfFuel g' :=
  c4_termination allZeros (by decide)

/-- C5: on a structurally valid 9x9 grid whose unique unknown cell
`(pc, pr)` has the singleton candidate set `{d}` (all eight other digits
of the domain are excluded by its row, column or block), `solve` succeeds,
writes exactly `d` into that cell, and the resulting grid is complete. -/
theorem c5_forced_cell (g : Grid) (pc pr d : Nat)
    (hv : specValid g = true) (hpc : pc < 9) (hpr : pr < 9)
    (h0 : getCell g pc pr = 0)
    (huniq : ∀ qc, qc < 9 → ∀ qr, qr < 9 → ((qc, qr) : Nat × Nat) ≠ (pc, pr) →
      getCell g qc qr ≠ 0)
    (hcand : check_possible_digits g pc pr = {d}) :
    solve g = .ok (setCell g pc pr d) ∧ complete (setCell g pc pr d) = true := by
  have hwf := specValid_wf hv
  have hd : d ∈ digits := by
    have hself : d ∈ check_possible_digits g pc pr := by
      rw [hcand]
      exact Finset.mem_singleton_self d
    exact cp_subset g pc pr hself
  have hdnz : d ≠ 0 := by
    have := mem_digits.mp hd
    omega
  have hmem : ((pc, pr) : Nat × Nat) ∈ scanOrder := mem_scanOrder.mpr ⟨hpc, hpr⟩
  obtain ⟨l1, l2, hsplit⟩ := List.append_of_mem hmem
  have hnodup : (l1 ++ (pc, pr) :: l2).Nodup := by
    rw [← hsplit]
    exact scanOrder_nodup
  have hpnotl1 : ((pc, pr) : Nat × Nat) ∉ l1 := fun hin =>
    (List.disjoint_of_nodup_append hnodup) hin (List.mem_cons_self _ _)
  have hpnotl2 : ((pc, pr) : Nat × Nat) ∉ l2 :=
    (List.nodup_cons.mp (List.nodup_append.mp hnodup).2.1).1
  have hl1sub : ∀ q ∈ l1, q ∈ scanOrder := by
    intro q hq
    rw [hsplit]
    exact List.mem_append_left _ hq
  have hl2sub : ∀ q ∈ l2, q ∈ scanOrder := by
    intro q hq
    rw [hsplit]
    exact List.mem_append_right _ (List.mem_cons_of_mem _ hq)
  have hnz1 : ∀ q ∈ l1, getCell g q.1 q.2 ≠ 0 := by
    intro q hq
    have hb := scanOrder_bounds (hl1sub q hq)
    refine huniq q.1 hb.1 q.2 hb.2 ?_
    intro hcon
    have hq' : q = (pc, pr) := hcon
    rw [hq'] at hq
    exact hpnotl1 hq
  have hnz2 : ∀ q ∈ l2, getCell (setCell g pc pr d) q.1 q.2 ≠ 0 := by
    intro q hq
    have hb := scanOrder_bounds (hl2sub q hq)
    have hqne : ((q.1, q.2) : Nat × Nat) ≠ (pc, pr) := by
      intro hcon
      have hq' : q = (pc, pr) := hcon
      rw [hq'] at hq
      exact hpnotl2 hq
    rw [getCell_setCell_ne g d hqne]
    exact huniq q.1 hb.1 q.2 hb.2 hqne
  have hskip1 := pass_cells_skip l1 g false hnz1
  have hassign : pass_cells ((pc, pr) :: l2) g false = (setCell g pc pr d, true) := by
    simp only [pass_cells]
    dsimp only
    rw [if_pos h0, hcand, filter_range_singleton hd]
    exact pass_cells_skip l2 (setCell g pc pr d) true hnz2
  have hpass : one_pass g = (setCell g pc pr d, true) := by
    rw [one_pass, hsplit, pass_cells_append, hskip1]
    exact hassign
  have hcomp' : complete (setCell g pc pr d) = true := by
    simp only [complete, List.all_eq_true, List.mem_range, bne_iff_ne, ne_eq]
    intro i hi j hj
    by_cases hij : ((i, j) : Nat × Nat) = (pc, pr)
    · have h1 : i = pc := congrArg Prod.fst hij
      have h2 : j = pr := congrArg Prod.snd hij
      subst h1
      subst h2
      rw [getCell_setCell_self g d (by rw [wf_length hwf]; exact hpr)
        (by rw [wf_row_length hwf hpr]; exact hpc)]
      exact hdnz
    · rw [getCell_setCell_ne g d hij]
      exact huniq i hi j hj hij
  have hcompg : complete g = false := by
    cases hcg : complete g with
    | false => rfl
    | true =>
      exfalso
      simp only [complete, List.all_eq_true, List.mem_range, bne_iff_ne, ne_eq] at hcg
      exact hcg pc hpc pr hpr h0
  have hcz1 : 1 ≤ count_zeros g := by
    have hpos : 0 < scanOrder.countP fun p => getCell g p.1 p.2 == 0 :=
      List.countP_pos_iff.mpr ⟨(pc, pr), hmem, by simp [h0]⟩
    exact hpos
  refine ⟨?_, hcomp'⟩
  obtain ⟨n, hn⟩ : ∃ n, count_zeros g = n + 1 := ⟨count_zeros g - 1, by omega⟩
  show solveLoop (count_zeros g + 1) g = _
  rw [hn, solveLoop_step hcompg hpass (n + 1), if_pos rfl, solveLoop_complete hcomp' n]

/-- Witness for C5 at a concrete input: a full solution grid with cell
`(0, 0)` blanked; the forced digit is 1. -/
theorem c5_forced_cell_witness :
    solve gridOneMissing = .ok (setCell gridOneMissing 0 0 1)
    ∧ complete (setCell gridOneMissing 0 0 1) = true :=
  c5_forced_cell gridOneMissing 0 0 1 (by decide) (by decide) (by decide) (by decide)
    (by decide) (by decide)

/-- C6: for every cell `(col, row)` with both indices in `0..8`,
`check_possible_digits` returns exactly the domain `{1, ..., 9}` minus the
non-zero values of row `row`, minus those of column `col`, minus those of
the block containing `(col, row)`. The query is pure by construction in
this embedding: it is a function of the grid that returns only the digit
set, and no theorem about the grid state is needed. -/
theorem c6_candidates (g : Grid) (col row : Nat) (hc : col < 9) (hr : row < 9) :
    check_possible_digits g col row = candidatesSpec g col row :=
  cp_eq_candidatesSpec g hc hr

/-- Witness for C6 at a concrete input. -/
theorem c6_candidates_witness :
    check_possible_digits gridOneMissing 0 0 = candidatesSpec gridOneMissing 0 0 :=
  c6_candidates gridOneMissing 0 0 (by decide) (by decide)

/-- C7: within a single pass, a cell whose candidate set is the singleton
`{d}` is assigned immediately: the rest of the pass is the pass over the
remaining cells of the updated grid `setCell g pc pr d` (with the progress
flag set), so every later cell computes its candidates against the updated
grid, not against the grid as it stood when the pass began. -/
theorem c7_immediate_assign (g : Grid) (b : Bool) (pc pr d : Nat)
    (ps : List (Nat × Nat))
    (h0 : getCell g pc pr = 0) (hcand : check_possible_digits g pc pr = {d}) :
    pass_cells ((pc, pr) :: ps) g b = pass_cells ps (setCell g pc pr d) true := by
  have hd : d ∈ digits := by
    have hself : d ∈ check_possible_digits g pc pr := by
      rw [hcand]
      exact Finset.mem_singleton_self d
    exact cp_subset g pc pr hself
  simp only [pass_cells]
  dsimp only
  rw [if_pos h0, hcand, filter_range_singleton hd]

/-- Witness for C7 at a concrete input. -/
theorem c7_immediate_assign_witness :
    pass_cells [(0, 0)] gridOneMissing false
      = pass_cells [] (setCell gridOneMissing 0 0 1) true :=
  c7_immediate_assign gridOneMissing false 0 0 1 [] (by decide) (by decide)

/-- C8: `solve` only ever writes to cells holding the unknown marker 0: if
the loop has reached state `g1` (so `g1` holds the starting clues plus
everything assigned so far) then every non-zero cell of `g1` still holds
the same digit in the grid `solve` finally returns or fails with, whether
it succeeds or raises. -/
theorem c8_preserves_nonzero (g g1 : Grid) (qc qr : Nat)
    (hv : specValid g = true) (hreach : Reaches g g1)
    (hq : getCell g1 qc qr ≠ 0) :
    getCell (result_grid (solve g)) qc qr = getCell g1 qc qr :=
  reaches_preserve hreach (count_zeros g + 1) (specValid_wf hv) (by omega) hq

/-- Witness for C8 at a concrete input: the single clue 5 of
`gridOneFive` survives the (failing) solve. -/
theorem c8_preserves_nonzero_witness :
    getCell (result_grid (solve gridOneFive)) 0 0 = 5 :=
  (c8_preserves_nonzero gridOneFive gridOneFive 0 0 (by decide)
    (Reaches.refl gridOneFive) (by decide)).trans (by decide)

/-- C9 counterexample: `gridColDupFirst` has all its values in the range
accepted by the digit check and a duplicate non-zero digit in row 1, yet
construction fails with the error naming column 0, not row 1: the
interleaved loop of `check_grid` checks column 0 before row 1, and column
0 also holds a duplicate 5. -/
theorem c9_not_always_row_error :
    (∃ d ∈ row_cells gridColDupFirst 1, d ≠ 0
      ∧ 2 ≤ (row_cells gridColDupFirst 1).count d)
    ∧ check_for_invalid_digits gridColDupFirst = .ok ()
    ∧ check_grid gridColDupFirst = .error (.colDup 0) := by
  exact ⟨by decide, by decide, by decide⟩

/-- C9 (amended): for every 9x9 input whose values all pass the
digit-range check, if some non-zero digit appears twice in row `r` while
no row with a smaller index and no column with index smaller than `r`
holds a duplicate non-zero digit, then construction fails with the
`StructuralError` naming row `r`. -/
theorem c9_row_dup_amended (g : Grid) (r : Nat)
    (hwf : wellFormed g = true)
    (hdig : check_for_invalid_digits g = .ok ())
    (hr : r < 9)
    (hdup : ∃ d ∈ row_cells g r, d ≠ 0 ∧ 2 ≤ (row_cells g r).count d)
    (hrows : ∀ i < r, ¬∃ d ∈ row_cells g i, d ≠ 0 ∧ 2 ≤ (row_cells g i).count d)
    (hcols : ∀ i < r, ¬∃ d ∈ col_cells g i, d ≠ 0 ∧ 2 ≤ (col_cells g i).count d) :
    check_grid g = .error (.rowDup r) := by
  unfold check_grid
  rw [if_pos (show n_rows g = 9 ∧ n_cols g = 9 from ⟨wf_n_rows hwf, wf_n_cols hwf⟩)]
  rw [wf_grid_check hwf, hdig]
  obtain ⟨m, hm⟩ : ∃ m, 9 = r + (m + 1) := ⟨9 - r - 1, by omega⟩
  have hrange : List.range 9 = List.range r ++ r :: ((List.range m).map fun x => r + (x + 1)) := by
    conv_lhs => rw [hm, List.range_add, List.range_succ_eq_map]
    simp [List.map_map, Function.comp]
  have hclean : ∀ i ∈ List.range r, find_duplicate (row_cells g i) ∅ = false
      ∧ find_duplicate (col_cells g i) ∅ = false := by
    intro i hi
    have hi' : i < r := List.mem_range.mp hi
    constructor
    · cases hfd : find_duplicate (row_cells g i) ∅ with
      | false => rfl
      | true => exact absurd ((find_duplicate_empty_iff _).mp hfd) (hrows i hi')
    · cases hfd : find_duplicate (col_cells g i) ∅ with
      | false => rfl
      | true => exact absurd ((find_duplicate_empty_iff _).mp hfd) (hcols i hi')
  rw [hrange, check_rows_cols_append g _ (List.range r) hclean,
    check_rows_cols_row_error g r _ ((find_duplicate_empty_iff _).mpr hdup)]

/-- Witness for C9 (amended) at a concrete input: a duplicate 5 in row 0,
everything else empty. -/
theorem c9_row_dup_witness :
    check_grid gridRowDup = Except.error (GridError.rowDup 0) :=
  c9_row_dup_amended gridRowDup 0 (by decide) (by decide) (by decide) (by decide)
    (fun i hi => absurd hi (by omega)) (fun i hi => absurd hi (by omega))

/-- C10: constructing a puzzle from an input with zero lines raises
`IndexError` while `read_gridfile` derives the column count from
`self.grid[0]`, before any dimension or structural validation runs, so an
empty input never produces an `InvalidGridError`; and at the command-line
layer this `IndexError` is caught by the same `except IndexError` branch
as a missing `argv[1]`, printing the identical message. -/
theorem c10_empty_input :
    read_gridfile [] = .error .indexError
    ∧ (∀ e : GridError, read_gridfile [] ≠ .error (.invalidGrid e))
    ∧ cli_error_message (some (some [])) = cli_error_message none := by
  refine ⟨rfl, ?_, rfl⟩
  intro e h
  simp [read_gridfile] at h

end SudokuSolver
